import Mathlib

/-!
# GitCDN backend (`src/backend/api-app.ts`): a shallow embedding

This file models the session/crypto and asset-path layer of the GitCDN
Express backend and proves the spec's testable properties against it.

Modelling conventions:
* JavaScript strings are modelled as `List Char` (`JStr`); `null`/`undefined`
  or a non-string value is modelled by `Option JStr`'s `none` where the code
  does a `typeof`/nullish check.
* `Date.now()` and `crypto.randomBytes` outputs are explicit parameters.
* AES-256-GCM (`crypto.createCipheriv`/`createDecipheriv`) and
  `JSON.stringify`/`JSON.parse` are Node/library primitives, not repository
  code; they are abstracted as an `AEAD` record and a `Codec` record whose
  required laws appear as theorem hypotheses, discharged by concrete
  executable instances in the witnesses.  Byte buffers are `List Nat` with
  values `< 256`.
* Base64url (`Buffer.toString "base64url"` / `Buffer.from (s, "base64url")`)
  is modelled concretely, including Node's forgiving decoder (characters
  outside the alphabet are ignored and trailing bits that do not fill a
  byte are dropped).
* GitHub (`octokit`) is an oracle `JStr → Option GhFile` (`none` = 404);
  handlers return the list of upstream calls they issue.
-/

/-- JavaScript strings, modelled as lists of characters. -/
abbrev JStr := List Char

/-- The `ASSETS_ROOT_PATH` constant (`"assets"`). -/
def assetsRoot : JStr := "assets".data

/-- JS `String.prototype.trim`: drop whitespace from both ends. -/
def jsTrim (s : JStr) : JStr :=
  ((s.dropWhile Char.isWhitespace).reverse.dropWhile Char.isWhitespace).reverse

/-- JS `value.split(sep)` for a single-character separator: always returns at
least one (possibly empty) piece. -/
def splitOnChar (c : Char) : JStr → List JStr
  | [] => [[]]
  | x :: xs =>
    if x = c then [] :: splitOnChar c xs
    else
      match splitOnChar c xs with
      | h :: t => (x :: h) :: t
      | [] => [[x]]

/-- Models `sanitizeAssetName` (api-app.ts:269): trim; reject non-strings, empty,
`"."`, `".."`, and anything containing `/` or `\`. -/
def sanitizeAssetName : Option JStr → Option JStr
  | none => none
  | some v =>
    let trimmed := jsTrim v
    if trimmed = [] ∨ trimmed = ['.'] ∨ trimmed = ['.', '.'] then none
    else if trimmed.contains '/' ∨ trimmed.contains '\\' then none
    else some trimmed

/-- One character of the path-segment allow-list `[A-Za-z0-9._ -]`. -/
def segmentCharOk (c : Char) : Bool :=
  ('A' ≤ c ∧ c ≤ 'Z') ∨ ('a' ≤ c ∧ c ≤ 'z') ∨ ('0' ≤ c ∧ c ≤ '9') ∨
    c = '.' ∨ c = '_' ∨ c = ' ' ∨ c = '-'

/-- Models `sanitizePathSegment` (api-app.ts:286): reject empty, `"."`, `".."`, and
anything outside `^[A-Za-z0-9._ -]{1,128}$`. -/
def sanitizePathSegment (v : JStr) : Option JStr :=
  if v = [] ∨ v = ['.'] ∨ v = ['.', '.'] then none
  else if v.all segmentCharOk ∧ v.length ≤ 128 then some v
  else none

/-- The per-segment validation loop shared by the two path normalizers:
`null` as soon as any segment fails `sanitizePathSegment`. -/
def validateSegments : List JStr → Option (List JStr)
  | [] => some []
  | s :: rest =>
    match sanitizePathSegment s, validateSegments rest with
    | some v, some vs => some (v :: vs)
    | _, _ => none

/-- Models `segments.join("/")`. -/
def joinSlash : List JStr → JStr
  | [] => []
  | [s] => s
  | s :: rest => s ++ '/' :: joinSlash rest

/-- Shared tail of both normalizers, after backslash replacement and
asset-root stripping: strip outer slashes, split, trim and drop empty
segments, validate each. Returns `none` if a segment is invalid,
`some none` if no segment remains, `some (some p)` otherwise. -/
def normalizeSegments (n : JStr) : Option (Option JStr) :=
  let stripped := (n.dropWhile (· = '/')).reverse.dropWhile (· = '/') |>.reverse
  if stripped = [] then some none
  else
    let segments := ((splitOnChar '/' stripped).map jsTrim).filter (· ≠ [])
    if segments = [] then some none
    else
      match validateSegments segments with
      | none => none
      | some vs => some (some (joinSlash vs))

/-- Models `value.replaceAll("\\", "/")`. -/
def backslashToSlash (s : JStr) : JStr :=
  s.map fun c => if c = '\\' then '/' else c

/-- Models `normalized.startsWith("assets/") ? normalized.slice(7) : normalized`. -/
def stripAssetsRoot (s : JStr) : JStr :=
  if s.take 7 = (assetsRoot ++ ['/']) then s.drop 7 else s

/-- Models `normalizeFolderPath` (api-app.ts:298): `null`/`undefined` and the bare
asset root normalize to the root folder `""`; otherwise segment-validate. -/
def normalizeFolderPath : Option JStr → Option JStr
  | none => some []
  | some v =>
    let trimmed := jsTrim v
    if trimmed = [] then some []
    else
      let n := backslashToSlash trimmed
      if n = assetsRoot then some []
      else
        match normalizeSegments (stripAssetsRoot n) with
        | none => none
        | some none => some []
        | some (some p) => some p

/-- Models `normalizeAssetRelativePath` (api-app.ts:347): like the folder
normalizer, but empty / asset-root-only paths are invalid. -/
def normalizeAssetRelativePath : Option JStr → Option JStr
  | none => none
  | some v =>
    let n := backslashToSlash (jsTrim v)
    if n = [] then none
    else if n = assetsRoot then none
    else
      match normalizeSegments (stripAssetsRoot n) with
      | none => none
      | some none => none
      | some (some p) => some p

/-- Models `parentFolderPath` (api-app.ts:391): everything before the last `/`,
or `""` when there is none (`lastIndexOf`/`slice` done via `reverse`). -/
def parentFolderPath (p : JStr) : JStr :=
  if (p.reverse.takeWhile (· ≠ '/')).length = p.length then []
  else p.take (p.length - (p.reverse.takeWhile (· ≠ '/')).length - 1)

/-- Models `fileNameFromPath` (api-app.ts:400): everything after the last `/`. -/
def fileNameFromPath (p : JStr) : JStr :=
  (p.reverse.takeWhile (· ≠ '/')).reverse

/-- Models `joinAssetRepoPath` (api-app.ts:409). -/
def joinAssetRepoPath (relativePath : JStr) : JStr :=
  if relativePath = [] then assetsRoot else assetsRoot ++ '/' :: relativePath

/-! ## Repository tree inventory (api-app.ts:418, 528, 577) -/

/-- A repository/branch selection (`RepoSelection`). -/
structure RepoSelection where
  owner : JStr
  repo : JStr
  branch : JStr
deriving DecidableEq, Repr

/-- One recursive-tree node as returned by GitHub (`treeData.tree`
elements); only the fields the filter inspects. -/
structure TreeNode where
  type : JStr
  path : Option JStr
  sha : Option JStr
  size : Option Nat
deriving DecidableEq, Repr

/-- Models `AssetBlobEntry` (api-app.ts:60). -/
structure AssetBlobEntry where
  repoPath : JStr
  relativePath : JStr
  sha : JStr
  size : Nat
deriving DecidableEq, Repr

/-- Models `AssetFile` (api-app.ts:67). -/
structure AssetFile where
  name : JStr
  path : JStr
  folder : JStr
  sha : JStr
  size : Nat
  download_url : JStr
deriving DecidableEq, Repr

/-- Models `AssetFolder` (api-app.ts:76). -/
structure AssetFolder where
  name : JStr
  path : JStr
  parent : Option JStr
deriving DecidableEq, Repr

/-- A hex digit character for percent-encoding. -/
def hexDigit (n : Nat) : Char := "0123456789ABCDEF".data.getD n '0'

/-- UTF-8 bytes of one character (standard 1–4 byte encoding). -/
def utf8Bytes (c : Char) : List Nat :=
  let n := c.toNat
  if n < 0x80 then [n]
  else if n < 0x800 then [0xC0 + n / 64, 0x80 + n % 64]
  else if n < 0x10000 then [0xE0 + n / 4096, 0x80 + n / 64 % 64, 0x80 + n % 64]
  else [0xF0 + n / 262144, 0x80 + n / 4096 % 64, 0x80 + n / 64 % 64, 0x80 + n % 64]

/-- Characters `encodeURIComponent` leaves untouched. -/
def uriUnreserved (c : Char) : Bool :=
  ('A' ≤ c ∧ c ≤ 'Z') ∨ ('a' ≤ c ∧ c ≤ 'z') ∨ ('0' ≤ c ∧ c ≤ '9') ∨
    c = '-' ∨ c = '_' ∨ c = '.' ∨ c = '!' ∨ c = '~' ∨ c = '*' ∨
    c = '\'' ∨ c = '(' ∨ c = ')'

/-- JS `encodeURIComponent`: percent-encode the UTF-8 bytes of every
reserved character. -/
def encodeURIComponent (s : JStr) : JStr :=
  (s.map fun c =>
    if uriUnreserved c then [c]
    else ((utf8Bytes c).map fun b => ['%', hexDigit (b / 16 % 16), hexDigit (b % 16)]).flatten).flatten

/-- Models `toRawGitHubUrl` (api-app.ts:413). -/
def toRawGitHubUrl (sel : RepoSelection) (filePath : JStr) : JStr :=
  "https://raw.githubusercontent.com/".data ++ sel.owner ++ '/' :: sel.repo ++
    '/' :: sel.branch ++ '/' ::
    joinSlash ((splitOnChar '/' filePath).map encodeURIComponent)

/-- Models `toCdnUrl` (api-app.ts:524). -/
def toCdnUrl (sel : RepoSelection) (filePath : JStr) : JStr :=
  "https://cdn.jsdelivr.net/gh/".data ++ sel.owner ++ '/' :: sel.repo ++
    '@' :: sel.branch ++ '/' :: filePath

/-- JS `Set.prototype.add`: insertion-ordered, duplicate-free. -/
def setAdd (s : List JStr) (x : JStr) : List JStr :=
  if x ∈ s then s else s ++ [x]

/-- The parent folder is strictly shorter, so the ancestor walks terminate. -/
theorem parentFolderPath_length_lt (p : JStr) (h : p ≠ []) :
    (parentFolderPath p).length < p.length := by
  have hp : 0 < p.length := List.length_pos.mpr h
  unfold parentFolderPath
  split
  · simpa using hp
  · simp only [List.length_take]
    omega

/-- Fuel-indexed form of the `addFolderWithAncestors` while-loop (the fuel
only needs to exceed the folder depth; it makes the recursion structural so
the kernel can evaluate it). -/
def addFolderWithAncestorsFuel : Nat → List JStr → JStr → List JStr
  | 0, target, _ => target
  | fuel + 1, target, folderPath =>
    if folderPath = [] then target
    else addFolderWithAncestorsFuel fuel (setAdd target folderPath)
      (parentFolderPath folderPath)

/-- Models `addFolderWithAncestors` (api-app.ts:418): insert a folder path and every
ancestor into the set. -/
def addFolderWithAncestors (target : List JStr) (folderPath : JStr) : List JStr :=
  addFolderWithAncestorsFuel (folderPath.length + 1) target folderPath

theorem addFuel_congr : ∀ (f1 f2 : Nat) (s : List JStr) (p : JStr),
    p.length < f1 → p.length < f2 →
    addFolderWithAncestorsFuel f1 s p = addFolderWithAncestorsFuel f2 s p
  | 0, _, _, p, h1, _ => absurd h1 (by omega)
  | _ + 1, 0, _, p, _, h2 => absurd h2 (by omega)
  | f1 + 1, f2 + 1, s, p, h1, h2 => by
    unfold addFolderWithAncestorsFuel
    by_cases h : p = []
    · rw [if_pos h, if_pos h]
    · rw [if_neg h, if_neg h]
      exact addFuel_congr f1 f2 (setAdd s p) (parentFolderPath p)
        (by have := parentFolderPath_length_lt p h; omega)
        (by have := parentFolderPath_length_lt p h; omega)

/-- The one-step unfolding of the `addFolderWithAncestors` while loop. -/
theorem addFolderWithAncestors_eq (s : List JStr) (p : JStr) :
    addFolderWithAncestors s p =
      if p = [] then s
      else addFolderWithAncestors (setAdd s p) (parentFolderPath p) := by
  show addFolderWithAncestorsFuel (p.length + 1) s p = _
  unfold addFolderWithAncestorsFuel
  by_cases h : p = []
  · rw [if_pos h, if_pos h]
  · rw [if_neg h, if_neg h]
    exact addFuel_congr _ _ _ _ (parentFolderPath_length_lt p h) (Nat.lt_succ_self _)

/-- Fuel-indexed form of the ancestor chain. -/
def folderChainFuel : Nat → JStr → List JStr
  | 0, _ => []
  | fuel + 1, p => if p = [] then [] else p :: folderChainFuel fuel (parentFolderPath p)

/-- The chain of a folder and its ancestors, in the order the `while` loop
of `addFolderWithAncestors` visits them. -/
def folderChain (p : JStr) : List JStr := folderChainFuel (p.length + 1) p

theorem folderChainFuel_congr : ∀ (f1 f2 : Nat) (p : JStr),
    p.length < f1 → p.length < f2 → folderChainFuel f1 p = folderChainFuel f2 p
  | 0, _, p, h1, _ => absurd h1 (by omega)
  | _ + 1, 0, p, _, h2 => absurd h2 (by omega)
  | f1 + 1, f2 + 1, p, h1, h2 => by
    unfold folderChainFuel
    by_cases h : p = []
    · rw [if_pos h, if_pos h]
    · rw [if_neg h, if_neg h]
      rw [folderChainFuel_congr f1 f2 (parentFolderPath p)
        (by have := parentFolderPath_length_lt p h; omega)
        (by have := parentFolderPath_length_lt p h; omega)]

/-- The one-step unfolding of the ancestor chain. -/
theorem folderChain_eq (p : JStr) :
    folderChain p = if p = [] then [] else p :: folderChain (parentFolderPath p) := by
  show folderChainFuel (p.length + 1) p = _
  unfold folderChainFuel
  by_cases h : p = []
  · rw [if_pos h, if_pos h]
  · rw [if_neg h, if_neg h,
      folderChainFuel_congr _ _ _ (parentFolderPath_length_lt p h) (Nat.lt_succ_self _)]
    rfl

/-- Codepoint-lexicographic order on JS strings (model of the
`localeCompare` sort comparators). -/
def jstrLe : JStr → JStr → Bool
  | [], _ => true
  | _ :: _, [] => false
  | a :: as, b :: bs => if a = b then jstrLe as bs else decide (a < b)

/-- Insert into a sorted list (model of `Array.prototype.sort`). -/
def insertBy (le : α → α → Bool) (x : α) : List α → List α
  | [] => [x]
  | y :: ys => if le x y then x :: y :: ys else y :: insertBy le x ys

/-- Insertion sort (model of `Array.prototype.sort`). -/
def sortBy (le : α → α → Bool) (l : List α) : List α :=
  l.foldr (insertBy le) []

/-- Models `getAssetBlobEntries` (api-app.ts:528), given the recursive tree listing:
keep blobs with a truthy path and sha under `assets/` whose relative path
survives sanitization. -/
def getAssetBlobEntries : List TreeNode → List AssetBlobEntry
  | [] => []
  | n :: rest =>
    let tail := getAssetBlobEntries rest
    if n.type ≠ "blob".data then tail
    else
      match n.path, n.sha with
      | some p, some s =>
        if p = [] ∨ s = [] then tail
        else if p.take 7 ≠ (assetsRoot ++ ['/']) then tail
        else
          match normalizeAssetRelativePath (some p) with
          | none => tail
          | some rel =>
            { repoPath := joinAssetRepoPath rel, relativePath := rel,
              sha := s, size := n.size.getD 0 } :: tail
      | _, _ => tail

/-- The `AssetFile` record pushed by `buildAssetInventory` for one entry. -/
def mkAssetFile (sel : RepoSelection) (e : AssetBlobEntry) : AssetFile :=
  { name := fileNameFromPath e.relativePath, path := e.relativePath,
    folder := parentFolderPath e.relativePath, sha := e.sha, size := e.size,
    download_url := toRawGitHubUrl sel e.repoPath }

/-- The accumulator loop of `buildAssetInventory` (api-app.ts:581):
files in arrival order, folder set with ancestors, `.gitkeep` skipped. -/
def inventoryLoop (sel : RepoSelection) (files : List AssetFile)
    (folderSet : List JStr) : List AssetBlobEntry → List AssetFile × List JStr
  | [] => (files, folderSet)
  | e :: rest =>
    let folders2 := addFolderWithAncestors folderSet (parentFolderPath e.relativePath)
    if fileNameFromPath e.relativePath = ".gitkeep".data then
      inventoryLoop sel files folders2 rest
    else inventoryLoop sel (files ++ [mkAssetFile sel e]) folders2 rest

/-- Models `buildAssetInventory` (api-app.ts:577): loop over the blob entries, then
sort files by path and folders by path, and project folders to
`AssetFolder` records. -/
def buildAssetInventory (sel : RepoSelection) (blobEntries : List AssetBlobEntry) :
    List AssetFile × List AssetFolder :=
  let acc := inventoryLoop sel [] [] blobEntries
  let files := sortBy (fun a b => jstrLe a.path b.path) acc.1
  let folders :=
    (sortBy jstrLe acc.2).map fun folderPath =>
      { path := folderPath, name := fileNameFromPath folderPath,
        parent := if parentFolderPath folderPath = [] then none
                  else some (parentFolderPath folderPath) : AssetFolder }
  (files, folders)

/-! ## Cookie codec (api-app.ts:144–176)

`encryptPayload` / `decryptPayload` wrap AES-256-GCM (library code) in the
repository's token format `b64url(iv).b64url(tag).b64url(ciphertext)`.
The cipher and the JSON codec are abstract parameters; the token format,
base64url and the fail-closed control flow are modelled concretely. -/

/-- The base64url alphabet used by `Buffer.toString("base64url")`. -/
def b64Alphabet : JStr :=
  "ABCDEFGHIJKLMNOPQRSTUVWXYZabcdefghijklmnopqrstuvwxyz0123456789-_".data

/-- Value (0–63) to base64url character. -/
def valToChar (v : Nat) : Char := b64Alphabet.getD v 'A'

/-- Base64url character back to its value; `none` off the alphabet. -/
def charToVal (c : Char) : Option Nat := b64Alphabet.indexOf? c

/-- Base64url encoding of a byte list (unpadded, as Node's `base64url`):
three bytes become four characters; a trailing one or two bytes become two
or three characters carrying the remaining bits. -/
def b64urlEncodeBytes : List Nat → JStr
  | [] => []
  | [b1] => [valToChar (b1 / 4), valToChar (b1 % 4 * 16)]
  | [b1, b2] =>
    [valToChar (b1 / 4), valToChar (b1 % 4 * 16 + b2 / 16), valToChar (b2 % 16 * 4)]
  | b1 :: b2 :: b3 :: rest =>
    valToChar (b1 / 4) :: valToChar (b1 % 4 * 16 + b2 / 16) ::
      valToChar (b2 % 16 * 4 + b3 / 64) :: valToChar (b3 % 64) ::
      b64urlEncodeBytes rest

/-- Decode a stream of 6-bit values into bytes, dropping trailing bits that
do not fill a byte (Node's forgiving decoder). -/
def b64DecodeVals : List Nat → List Nat
  | v1 :: v2 :: v3 :: v4 :: rest =>
    (v1 * 4 + v2 / 16) :: (v2 % 16 * 16 + v3 / 4) :: (v3 % 4 * 64 + v4) ::
      b64DecodeVals rest
  | [v1, v2] => [v1 * 4 + v2 / 16]
  | [v1, v2, v3] => [v1 * 4 + v2 / 16, v2 % 16 * 16 + v3 / 4]
  | _ => []

/-- Models `Buffer.from(s, "base64url")`: characters outside the alphabet are
ignored, then the 6-bit stream is packed into bytes. -/
def b64urlDecode (s : JStr) : List Nat :=
  b64DecodeVals (s.filterMap charToVal)

/-- An authenticated cipher with the fixed derived key baked in:
`enc iv plaintext = (ciphertext, tag)`, `dec iv ciphertext tag` recovers the
plaintext or fails. Models AES-256-GCM under `cryptoKey` (api-app.ts:37). -/
structure AEAD where
  enc : List Nat → List Nat → List Nat × List Nat
  dec : List Nat → List Nat → List Nat → Option (List Nat)

/-- Models `JSON.stringify` (to UTF-8 bytes) and `JSON.parse` for payload type `P`. -/
structure Codec (P : Type) where
  stringify : P → List Nat
  parse : List Nat → Option P

/-- Models `encryptPayload` (api-app.ts:144): the random 96-bit nonce is an explicit
argument; the output joins the base64url pieces with `.`. -/
def encryptPayload (A : AEAD) (C : Codec P) (iv : List Nat) (payload : P) : JStr :=
  let ct := (A.enc iv (C.stringify payload)).1
  let tag := (A.enc iv (C.stringify payload)).2
  b64urlEncodeBytes iv ++ '.' :: b64urlEncodeBytes tag ++ '.' :: b64urlEncodeBytes ct

/-- Models `decryptPayload` (api-app.ts:153): destructure the first three
`.`-separated pieces (extra pieces are ignored by the JS destructuring),
fail on a falsy piece, decode, decrypt, JSON-parse; every failure —
including the `createDecipheriv` throw on an empty decoded IV — is caught
and becomes `none`. -/
def decryptPayload (A : AEAD) (C : Codec P) (value : JStr) : Option P :=
  match splitOnChar '.' value with
  | ivB64 :: tagB64 :: dataB64 :: _ =>
    if ivB64 = [] ∨ tagB64 = [] ∨ dataB64 = [] then none
    else
      let iv := b64urlDecode ivB64
      if iv = [] then none
      else
        match A.dec iv (b64urlDecode dataB64) (b64urlDecode tagB64) with
        | none => none
        | some pt => C.parse pt
  | _ => none

/-! ## Session store and OAuth gate (api-app.ts:613–658, 714–731) -/

/-- Models `UserSession` (api-app.ts:39). -/
structure UserSession where
  github_token : JStr
  username : JStr
  avatar_url : JStr
  selected_repo : Option JStr
  selected_branch : Option JStr
  issued_at : Nat
  expires_at : Nat
deriving DecidableEq, Repr

/-- Models `OAuthState` (api-app.ts:49). -/
structure OAuthStateData where
  state : JStr
  expires_at : Nat
deriving DecidableEq, Repr

/-- Models `readEncryptedCookie` (api-app.ts:223): the cookie jar is abstracted to
the looked-up cookie value (`none` = header absent or name missing). -/
def readEncryptedCookie (A : AEAD) (C : Codec P) (cookieVal : Option JStr) : Option P :=
  match cookieVal with
  | none => none
  | some v => decryptPayload A C v

/-- Models `readSession` (api-app.ts:613): decrypt, then reject expired payloads
(`Date.now() > expires_at`) and payloads without a non-empty token. -/
def readSession (A : AEAD) (C : Codec UserSession) (cookieVal : Option JStr)
    (now : Nat) : Option UserSession :=
  match readEncryptedCookie A C cookieVal with
  | none => none
  | some payload =>
    if payload.expires_at < now then none
    else if payload.github_token = [] then none
    else some payload

/-- The outward outcome of `requireSession` (api-app.ts:649): the session
handed to the handler, whether the session cookie was cleared, and the
response status it forced (if any). -/
structure AuthOutcome where
  session : Option UserSession
  sessionCookieCleared : Bool
  status : Option Nat
deriving DecidableEq, Repr

/-- Models `requireSession` (api-app.ts:649): on any `readSession` failure, clear
the session cookie and answer 401. -/
def requireSession (A : AEAD) (C : Codec UserSession) (cookieVal : Option JStr)
    (now : Nat) : AuthOutcome :=
  match readSession A C cookieVal now with
  | none => { session := none, sessionCookieCleared := true, status := some 401 }
  | some s => { session := some s, sessionCookieCleared := false, status := none }

/-- Outcome of the state-validation part of `GET /api/auth/callback`
(api-app.ts:719–731): whether the OAuth-state cookie was cleared, and
whether the handler proceeds to the code-for-token exchange. -/
structure CallbackOutcome where
  stateCookieCleared : Bool
  proceeds : Bool
  status : Option Nat
deriving DecidableEq, Repr

/-- The callback gate (api-app.ts:719–731), after the configuration checks:
read the state cookie, clear it unconditionally, then fail on a missing
`code`/`state`, a missing or undecryptable cookie, a state mismatch, or an
expired stored state. -/
def callbackGate (A : AEAD) (C : Codec OAuthStateData) (stateCookie : Option JStr)
    (code state : JStr) (now : Nat) : CallbackOutcome :=
  let oauthState := readEncryptedCookie A C stateCookie
  -- clearCookie(res, OAUTH_STATE_COOKIE_NAME) happens here, before any check
  if code = [] ∨ state = [] then
    { stateCookieCleared := true, proceeds := false, status := some 400 }
  else
    match oauthState with
    | none => { stateCookieCleared := true, proceeds := false, status := some 400 }
    | some st =>
      if st.state ≠ state ∨ st.expires_at < now then
        { stateCookieCleared := true, proceeds := false, status := some 400 }
      else { stateCookieCleared := true, proceeds := true, status := none }

/-! ## Upload naming and payload (api-app.ts:430–508, 1058–1117) -/

/-- Models `extractExtensionFromName` (api-app.ts:430): the lowercased text after
the last dot, provided the dot is neither leading nor trailing and the
extension matches `^[a-z0-9]{1,10}$`. -/
def extractExtensionFromName : Option JStr → Option JStr
  | none => none
  | some name =>
    if name = [] then none
    else
      let after := name.reverse.takeWhile (· ≠ '.')
      if after.length = name.length then none  -- no dot: lastIndexOf = -1
      else if name.length - after.length - 1 = 0 then none  -- leading dot
      else if after = [] then none  -- trailing dot
      else
        let ext := (after.reverse).map Char.toLower
        if ext.all (fun c => ('a' ≤ c ∧ c ≤ 'z') ∨ ('0' ≤ c ∧ c ≤ '9')) ∧
            ext.length ≤ 10 then some ext
        else none

/-- Models `extractMimeType` (api-app.ts:448): the regex `^data:([^;,]+)[;,]` with
the `i` flag, result lowercased. -/
def extractMimeType : Option JStr → Option JStr
  | none => none
  | some v =>
    if (v.take 5).map Char.toLower ≠ "data:".data then none
    else
      let rest := v.drop 5
      let mime := rest.takeWhile fun c => ¬ (c = ';' ∨ c = ',')
      if mime = [] then none
      else if mime.length = rest.length then none  -- no [;,] terminator
      else some (mime.map Char.toLower)

/-- Models `extensionFromMimeType` (api-app.ts:461): the fixed lookup table. -/
def extensionFromMimeType : Option JStr → Option JStr
  | none => none
  | some m =>
    if m = "image/jpeg".data then some "jpg".data
    else if m = "image/png".data then some "png".data
    else if m = "image/gif".data then some "gif".data
    else if m = "image/webp".data then some "webp".data
    else if m = "image/svg+xml".data then some "svg".data
    else if m = "video/mp4".data then some "mp4".data
    else if m = "video/webm".data then some "webm".data
    else if m = "audio/mpeg".data then some "mp3".data
    else if m = "audio/wav".data then some "wav".data
    else if m = "audio/ogg".data then some "ogg".data
    else if m = "application/pdf".data then some "pdf".data
    else if m = "text/plain".data then some "txt".data
    else if m = "application/json".data then some "json".data
    else none

/-- Decimal digit character. -/
def decDigit (n : Nat) : Char := Char.ofNat (48 + n % 10)

/-- Decimal rendering of a natural number (JS template `${Date.now()}`). -/
def natDecimalAux : Nat → Nat → JStr
  | 0, _ => []
  | fuel + 1, n => if n < 10 then [decDigit n] else natDecimalAux fuel (n / 10) ++ [decDigit (n % 10)]

/-- Decimal rendering of a natural number. -/
def natDecimal (n : Nat) : JStr := natDecimalAux (n + 1) n

/-- Models `generateAnonymousAssetName` (api-app.ts:485): always
`timestamp-randomhex`, with an extension from the original name first, else
from the data-URL MIME type, else none. `Date.now()` and the random hex
string are explicit arguments. -/
def generateAnonymousAssetName (now : Nat) (randHex : JStr)
    (originalName : Option JStr) (encodedContent : Option JStr) : JStr :=
  let extension :=
    match extractExtensionFromName originalName with
    | some e => some e
    | none => extensionFromMimeType (extractMimeType encodedContent)
  let baseName := natDecimal now ++ '-' :: randHex
  match extension with
  | some e => baseName ++ '.' :: e
  | none => baseName

/-- First index of a comma, if any. -/
def commaIdx : JStr → Option Nat
  | [] => none
  | x :: xs => if x = ',' then some 0 else (commaIdx xs).map (· + 1)

/-- JS `value.indexOf(",")` as an integer (−1 when absent). -/
def jsIndexOfComma (s : JStr) : Int :=
  match commaIdx s with
  | some i => (i : Int)
  | none => -1

/-- Models `extractBase64Payload` (api-app.ts:497): everything after the first
comma, provided the comma is neither absent, first, nor last. -/
def extractBase64Payload : Option JStr → Option JStr
  | none => none
  | some v =>
    let commaIndex := jsIndexOfComma v
    if commaIndex ≤ 0 ∨ commaIndex = (v.length : Int) - 1 then none
    else some (v.drop (commaIndex.toNat + 1))

/-- What the upload handler resolves before calling GitHub. -/
structure UploadPlan where
  name : JStr
  folder : JStr
  relativePath : JStr
  assetPath : JStr
  content : JStr
  commitMessage : JStr
deriving DecidableEq, Repr

/-- The `POST /api/upload` handler body after session/selection resolution
(api-app.ts:1073–1094): normalize the folder, sanitize the caller name,
extract the base64 payload, then always synthesize the asset name. -/
def uploadHandler (now : Nat) (randHex : JStr)
    (folder name content message : Option JStr) : Except JStr UploadPlan :=
  match normalizeFolderPath folder with
  | none => .error "Invalid folder path.".data
  | some folderPath =>
    let originalName := sanitizeAssetName name
    match extractBase64Payload content with
    | none => .error "Invalid upload payload.".data
    | some base64Content =>
      let assetName := generateAnonymousAssetName now randHex originalName content
      let commitMessage :=
        match message with
        | some m => if jsTrim m ≠ [] then jsTrim m
                    else "Upload ".data ++ assetName ++ " via GitCDN".data
        | none => "Upload ".data ++ assetName ++ " via GitCDN".data
      let relativeAssetPath :=
        if folderPath = [] then assetName else folderPath ++ '/' :: assetName
      .ok { name := assetName, folder := folderPath,
            relativePath := relativeAssetPath,
            assetPath := joinAssetRepoPath relativeAssetPath,
            content := base64Content, commitMessage := commitMessage }

/-! ## Move and delete handlers (api-app.ts:1119–1215, 1261–1303) -/

/-- A file as returned by `repos.getContent` (the fields the move handler
reads); directory listings are modelled by `type ≠ "file"`. -/
structure GhFile where
  type : JStr
  content : JStr
  encoding : JStr
  sha : JStr
deriving DecidableEq, Repr

/-- One upstream GitHub call issued by a handler. -/
inductive GhCall where
  | getContent (path : JStr)
  | createOrUpdate (path : JStr) (content : JStr) (message : JStr)
  | deleteFile (path : JStr) (sha : JStr) (message : JStr)
deriving DecidableEq, Repr

/-- Whether a call writes or deletes (as opposed to reading). -/
def GhCall.isMutation : GhCall → Bool
  | .getContent _ => false
  | .createOrUpdate _ _ _ => true
  | .deleteFile _ _ _ => true

/-- Replay a call trace against the repository-content oracle: reads leave
it unchanged, writes and deletes update it. -/
def applyCalls (gh : JStr → Option GhFile) : List GhCall → (JStr → Option GhFile)
  | [] => gh
  | .getContent _ :: rest => applyCalls gh rest
  | .createOrUpdate p c _ :: rest =>
    applyCalls (fun q => if q = p then
        some { type := "file".data, content := c, encoding := "base64".data,
               sha := "new".data }
      else gh q) rest
  | .deleteFile p _ _ :: rest =>
    applyCalls (fun q => if q = p then none else gh q) rest

/-- A handler response: status code and error message (success bodies are
modelled by `error := none`). -/
structure HandlerResp where
  status : Nat
  error : Option JStr
deriving DecidableEq, Repr

/-- The target path the move handler computes: destination folder plus the
source file's base name (api-app.ts:1144–1145). -/
def moveTargetPath (destinationFolder sourcePath : JStr) : JStr :=
  if destinationFolder = [] then fileNameFromPath sourcePath
  else destinationFolder ++ '/' :: fileNameFromPath sourcePath

/-- The `POST /api/assets/move` handler body after session/selection
resolution (api-app.ts:1134–1210). The oracle `gh` maps a repo path to its
file (`none` = the 404 that is treated as "safe to proceed"); the returned
list is the sequence of upstream calls issued. -/
def moveHandler (gh : JStr → Option GhFile)
    (bodyPath bodyDestination : Option JStr) : HandlerResp × List GhCall :=
  match normalizeAssetRelativePath bodyPath with
  | none => (⟨400, some "Invalid source asset path.".data⟩, [])
  | some sourcePath =>
    match normalizeFolderPath bodyDestination with
    | none => (⟨400, some "Invalid destination folder path.".data⟩, [])
    | some destinationFolder =>
      let targetPath := moveTargetPath destinationFolder sourcePath
      if targetPath = sourcePath then
        (⟨400, some "Source and destination are the same.".data⟩, [])
      else
        let sourceRepoPath := joinAssetRepoPath sourcePath
        let targetRepoPath := joinAssetRepoPath targetPath
        match gh targetRepoPath with
        | some _ =>
          (⟨409, some "A file already exists in the destination folder.".data⟩,
           [.getContent targetRepoPath])
        | none =>
          match gh sourceRepoPath with
          | none =>  -- the second getContent throws; caught by the outer catch
            (⟨500, some "Failed to move asset.".data⟩,
             [.getContent targetRepoPath, .getContent sourceRepoPath])
          | some sourceFile =>
            if sourceFile.type ≠ "file".data then
              (⟨400, some "Source path must be a file.".data⟩,
               [.getContent targetRepoPath, .getContent sourceRepoPath])
            else
              let content := sourceFile.content.filter (· ≠ '\n')
              if content = [] ∨ sourceFile.encoding ≠ "base64".data then
                (⟨500, some "Could not read source file content.".data⟩,
                 [.getContent targetRepoPath, .getContent sourceRepoPath])
              else
                (⟨200, none⟩,
                 [.getContent targetRepoPath, .getContent sourceRepoPath,
                  .createOrUpdate targetRepoPath content
                    ("Move ".data ++ sourcePath ++ " to ".data ++ targetPath ++
                      " via GitCDN".data),
                  .deleteFile sourceRepoPath sourceFile.sha
                    ("Delete ".data ++ sourcePath ++ " after move via GitCDN".data)])

/-- The `DELETE /api/assets/:name` handler body after session/selection
resolution (api-app.ts:1276–1296): sanitize the single-segment name, require
a sha, then delete at `assets/<name>`. -/
def deleteAssetByNameHandler (paramName : Option JStr) (querySha : Option JStr) :
    HandlerResp × List GhCall :=
  match sanitizeAssetName paramName with
  | none => (⟨400, some "Invalid asset name.".data⟩, [])
  | some assetName =>
    let sha := match querySha with | some s => jsTrim s | none => []
    if sha = [] then (⟨400, some "sha query param is required.".data⟩, [])
    else
      (⟨200, none⟩,
       [.deleteFile (joinAssetRepoPath assetName) sha
          ("Delete ".data ++ assetName ++ " via GitCDN".data)])

/-! ## Supporting lemmas: JS split and base64url -/

theorem splitOnChar_ne_nil (c : Char) (l : JStr) : splitOnChar c l ≠ [] := by
  cases l with
  | nil => simp [splitOnChar]
  | cons x xs =>
    unfold splitOnChar
    by_cases hx : x = c
    · simp [hx]
    · simp only [hx, if_false]
      cases splitOnChar c xs <;> simp

theorem splitOnChar_of_not_mem (c : Char) (l : JStr) (h : c ∉ l) :
    splitOnChar c l = [l] := by
  induction l with
  | nil => rfl
  | cons x xs ih =>
    have hx : x ≠ c := fun hxc => h (hxc ▸ List.mem_cons_self x xs)
    have hxs : c ∉ xs := fun hc => h (List.mem_cons_of_mem x hc)
    unfold splitOnChar
    simp only [hx, if_false, ih hxs]

theorem splitOnChar_append (c : Char) (a rest : JStr) (h : c ∉ a) :
    splitOnChar c (a ++ c :: rest) = a :: splitOnChar c rest := by
  induction a with
  | nil => simp [splitOnChar]
  | cons x xs ih =>
    have hx : x ≠ c := fun hxc => h (hxc ▸ List.mem_cons_self x xs)
    have hxs : c ∉ xs := fun hc => h (List.mem_cons_of_mem x hc)
    simp only [List.cons_append]
    conv_lhs => rw [splitOnChar]
    simp only [hx, if_false, ih hxs]

theorem charToVal_valToChar : ∀ v : Nat, v < 64 → charToVal (valToChar v) = some v := by
  decide

theorem valToChar_ne_dot (v : Nat) : valToChar v ≠ '.' := by
  rcases Nat.lt_or_ge v 64 with h | h
  · exact (by decide : ∀ w : Nat, w < 64 → valToChar w ≠ '.') v h
  · unfold valToChar
    rw [List.getD_eq_default]
    · decide
    · simpa [b64Alphabet] using h

theorem dot_not_mem_encode : ∀ bs : List Nat, '.' ∉ b64urlEncodeBytes bs
  | [] => by simp [b64urlEncodeBytes]
  | [b1] => by
    simp only [b64urlEncodeBytes, List.mem_cons, List.not_mem_nil, or_false]
    push_neg
    exact ⟨(valToChar_ne_dot _).symm, (valToChar_ne_dot _).symm⟩
  | [b1, b2] => by
    simp only [b64urlEncodeBytes, List.mem_cons, List.not_mem_nil, or_false]
    push_neg
    exact ⟨(valToChar_ne_dot _).symm, (valToChar_ne_dot _).symm, (valToChar_ne_dot _).symm⟩
  | b1 :: b2 :: b3 :: rest => by
    have ih := dot_not_mem_encode rest
    simp only [b64urlEncodeBytes, List.mem_cons]
    push_neg
    exact ⟨(valToChar_ne_dot _).symm, (valToChar_ne_dot _).symm, (valToChar_ne_dot _).symm,
      (valToChar_ne_dot _).symm, ih⟩

theorem encode_ne_nil (bs : List Nat) (h : bs ≠ []) : b64urlEncodeBytes bs ≠ [] := by
  match bs with
  | [] => exact absurd rfl h
  | [b1] => simp [b64urlEncodeBytes]
  | [b1, b2] => simp [b64urlEncodeBytes]
  | b1 :: b2 :: b3 :: rest => simp [b64urlEncodeBytes]

theorem b64_roundtrip : ∀ bs : List Nat, (∀ b ∈ bs, b < 256) →
    b64urlDecode (b64urlEncodeBytes bs) = bs
  | [], _ => rfl
  | [b1], h => by
    have h1 : b1 < 256 := h b1 (by simp)
    unfold b64urlDecode b64urlEncodeBytes
    rw [List.filterMap_cons_some (charToVal_valToChar _ (by omega)),
      List.filterMap_cons_some (charToVal_valToChar _ (by omega)),
      List.filterMap_nil]
    show b64DecodeVals [b1 / 4, b1 % 4 * 16] = [b1]
    unfold b64DecodeVals
    simp only [List.cons.injEq, and_true]
    omega
  | [b1, b2], h => by
    have h1 : b1 < 256 := h b1 (by simp)
    have h2 : b2 < 256 := h b2 (by simp)
    unfold b64urlDecode b64urlEncodeBytes
    rw [List.filterMap_cons_some (charToVal_valToChar _ (by omega)),
      List.filterMap_cons_some (charToVal_valToChar _ (by omega)),
      List.filterMap_cons_some (charToVal_valToChar _ (by omega)),
      List.filterMap_nil]
    show b64DecodeVals [b1 / 4, b1 % 4 * 16 + b2 / 16, b2 % 16 * 4] = [b1, b2]
    unfold b64DecodeVals
    simp only [List.cons.injEq, and_true]
    exact ⟨by omega, by omega⟩
  | b1 :: b2 :: b3 :: rest, h => by
    have h1 : b1 < 256 := h b1 (by simp)
    have h2 : b2 < 256 := h b2 (by simp)
    have h3 : b3 < 256 := h b3 (by simp)
    have ih := b64_roundtrip rest (fun b hb => h b (by simp [hb]))
    unfold b64urlDecode b64urlEncodeBytes
    rw [List.filterMap_cons_some (charToVal_valToChar _ (by omega)),
      List.filterMap_cons_some (charToVal_valToChar _ (by omega)),
      List.filterMap_cons_some (charToVal_valToChar _ (by omega)),
      List.filterMap_cons_some (charToVal_valToChar _ (by omega))]
    show b64DecodeVals ((b1 / 4) :: (b1 % 4 * 16 + b2 / 16) :: (b2 % 16 * 4 + b3 / 64) ::
      (b3 % 64) :: List.filterMap charToVal (b64urlEncodeBytes rest)) = b1 :: b2 :: b3 :: rest
    unfold b64DecodeVals
    simp only [List.cons.injEq]
    exact ⟨by omega, by omega, by omega, ih⟩

/-! ## Concrete instances used by the witnesses

`demoAEAD` is an executable authenticated cipher with the `AEAD` shape
(identity "encryption" plus a 16-byte checksum tag — a stand-in for
AES-256-GCM that satisfies the stated laws at the witness inputs), and
`bytesCodec` a trivial payload codec. -/

/-- A 16-byte checksum tag over iv and message. -/
def demoTagOf (iv m : List Nat) : List Nat :=
  List.replicate 14 0 ++
    [iv.foldl (fun a b => (a + b) % 256) 0, m.foldl (fun a b => (a * 3 + b + 1) % 256) 0]

/-- A concrete `AEAD` instance for witnesses. -/
def demoAEAD : AEAD where
  enc := fun iv m => (m, demoTagOf iv m)
  dec := fun iv ct tag => if iv ≠ [] ∧ tag = demoTagOf iv ct then some ct else none

/-- A concrete `Codec` over raw byte lists for witnesses. -/
def bytesCodec : Codec (List Nat) where
  stringify := fun p => p
  parse := fun l => some l

/-- A concrete 12-byte nonce. -/
def demoIv : List Nat := List.replicate 12 0

/-- A concrete payload (its "JSON" bytes). -/
def demoPayload : List Nat := [1, 2, 3]

/-- C3. Cookie codec round-trip: for every payload `P`, with a fresh 12-byte
nonce and an authenticated cipher and JSON codec satisfying their
contracts (GCM decryption inverts encryption, ciphertext and 16-byte tag
are non-empty byte lists, `JSON.parse` inverts `JSON.stringify`),
`decryptPayload (encryptPayload P) = P`. -/
theorem cookie_codec_roundtrip (A : AEAD) {P : Type} (C : Codec P)
    (iv : List Nat) (payload : P)
    (hivLen : iv.length = 12) (hivBytes : ∀ b ∈ iv, b < 256)
    (hctBytes : ∀ b ∈ (A.enc iv (C.stringify payload)).1, b < 256)
    (htagBytes : ∀ b ∈ (A.enc iv (C.stringify payload)).2, b < 256)
    (hctNe : (A.enc iv (C.stringify payload)).1 ≠ [])
    (htagNe : (A.enc iv (C.stringify payload)).2 ≠ [])
    (hdec : A.dec iv (A.enc iv (C.stringify payload)).1
        (A.enc iv (C.stringify payload)).2 = some (C.stringify payload))
    (hparse : C.parse (C.stringify payload) = some payload) :
    decryptPayload A C (encryptPayload A C iv payload) = some payload := by
  have hivNe : iv ≠ [] := by
    intro hnil
    rw [hnil] at hivLen
    simp at hivLen
  set m := C.stringify payload with hm
  set ct := (A.enc iv m).1 with hct
  set tag := (A.enc iv m).2 with htag
  have htok : encryptPayload A C iv payload =
      b64urlEncodeBytes iv ++ '.' ::
        (b64urlEncodeBytes tag ++ '.' :: b64urlEncodeBytes ct) := by
    unfold encryptPayload
    rw [← hm, ← hct, ← htag]
    simp [List.cons_append, List.append_assoc]
  have hsplit : splitOnChar '.' (encryptPayload A C iv payload) =
      [b64urlEncodeBytes iv, b64urlEncodeBytes tag, b64urlEncodeBytes ct] := by
    rw [htok, splitOnChar_append _ _ _ (dot_not_mem_encode iv),
      splitOnChar_append _ _ _ (dot_not_mem_encode tag),
      splitOnChar_of_not_mem _ _ (dot_not_mem_encode ct)]
  unfold decryptPayload
  rw [hsplit]
  dsimp only
  rw [if_neg (by
    push_neg
    exact ⟨encode_ne_nil iv hivNe, encode_ne_nil tag htagNe, encode_ne_nil ct hctNe⟩)]
  rw [b64_roundtrip iv hivBytes, b64_roundtrip tag htagBytes, b64_roundtrip ct hctBytes]
  rw [if_neg hivNe, hdec]
  dsimp only
  exact hparse

/-- C3 witness: the round-trip at the concrete instances. -/
theorem cookie_codec_roundtrip_witness :
    decryptPayload demoAEAD bytesCodec
      (encryptPayload demoAEAD bytesCodec demoIv demoPayload) = some demoPayload :=
  cookie_codec_roundtrip demoAEAD bytesCodec demoIv demoPayload (by decide) (by decide)
    (by decide) (by decide) (by decide) (by decide) (by decide) (by decide)

/-! ## C4: fail-closed decryption and the limits of byte-flip rejection -/

/-- A concrete valid token: `encryptPayload` at the demo instances. -/
def demoToken : JStr := encryptPayload demoAEAD bytesCodec demoIv demoPayload

/-- Models `demoToken` with the byte at index 38 (the final character of the tag
segment, `'w'`) replaced by `'7'`; `'w'.toNat ^^^ '7'.toNat = 64`, so this
is a single-bit flip of one byte of the token. -/
def demoFlippedToken : JStr := demoToken.set 38 '7'

/-- C4 counterexample: flipping one bit of one byte of a validly encrypted
token does NOT always yield null: the flipped byte sits in the unused
trailing bits of the tag segment's final base64url character, Node's
forgiving base64 decoder drops those bits, so the tampered token decrypts
to the original payload. -/
theorem decrypt_flip_counterexample :
    decryptPayload demoAEAD bytesCodec demoToken = some demoPayload ∧
    demoFlippedToken ≠ demoToken ∧
    demoFlippedToken.length = demoToken.length ∧
    (demoToken.getD 38 ' ').toNat ^^^ (demoFlippedToken.getD 38 ' ').toNat = 64 ∧
    decryptPayload demoAEAD bytesCodec demoFlippedToken = some demoPayload := by
  decide

/-- C4 (amended). For every input string, `decryptPayload` returns a value
(`none` or a parsed payload) and never throws; any token with fewer than
three `.`-separated segments, or with an empty iv/tag/data segment, yields
`none`; otherwise the outcome is determined solely by the base64url-decoded
(iv, ciphertext, tag) triple: `none` when the decoded iv is empty, when
authentication fails, or when JSON parsing fails, and the parsed payload
otherwise. (Hence a flip or truncation yields `none` exactly when it breaks
the segment structure or the decoded triple's authentication; a flip
confined to the unused trailing bits of a segment's final base64url
character leaves the decode unchanged and still yields the payload.) -/
theorem decrypt_fails_closed (A : AEAD) {P : Type} (C : Codec P) :
    (∀ v : JStr, decryptPayload A C v = none ∨
      ∃ p, decryptPayload A C v = some p) ∧
    (∀ v : JStr, (splitOnChar '.' v).length < 3 → decryptPayload A C v = none) ∧
    (∀ (v ivB64 tagB64 dataB64 : JStr) (tail : List JStr),
      splitOnChar '.' v = ivB64 :: tagB64 :: dataB64 :: tail →
      ivB64 = [] ∨ tagB64 = [] ∨ dataB64 = [] → decryptPayload A C v = none) ∧
    (∀ (v ivB64 tagB64 dataB64 : JStr) (tail : List JStr),
      splitOnChar '.' v = ivB64 :: tagB64 :: dataB64 :: tail →
      ivB64 ≠ [] → tagB64 ≠ [] → dataB64 ≠ [] →
      decryptPayload A C v =
        (if b64urlDecode ivB64 = [] then none
         else
           match A.dec (b64urlDecode ivB64) (b64urlDecode dataB64)
               (b64urlDecode tagB64) with
           | none => none
           | some pt => C.parse pt)) := by
  refine ⟨?_, ?_, ?_, ?_⟩
  · intro v
    cases h : decryptPayload A C v with
    | none => exact Or.inl rfl
    | some p => exact Or.inr ⟨p, rfl⟩
  · intro v hlen
    unfold decryptPayload
    match hs : splitOnChar '.' v with
    | [] => rfl
    | [a] => rfl
    | [a, b] => rfl
    | a :: b :: c :: tail =>
      rw [hs] at hlen
      simp only [List.length_cons] at hlen
      omega
  · intro v ivB64 tagB64 dataB64 tail hs hempty
    unfold decryptPayload
    rw [hs]
    dsimp only
    rw [if_pos hempty]
  · intro v ivB64 tagB64 dataB64 tail hs h1 h2 h3
    unfold decryptPayload
    rw [hs]
    dsimp only
    rw [if_neg (by push_neg; exact ⟨h1, h2, h3⟩)]

/-- C4 witness: the amended theorem applied at concrete malformed tokens —
a two-segment token yields `none`, and a tag-mismatch token yields `none`. -/
theorem decrypt_fails_closed_witness :
    decryptPayload demoAEAD bytesCodec "ab.cd".data = none ∧
    decryptPayload demoAEAD bytesCodec "AAAA.AAAA.AAAA".data = none := by
  constructor
  · exact (decrypt_fails_closed demoAEAD bytesCodec).2.1 "ab.cd".data (by decide)
  · rw [(decrypt_fails_closed demoAEAD bytesCodec).2.2.2 "AAAA.AAAA.AAAA".data
      "AAAA".data "AAAA".data "AAAA".data [] (by decide) (by decide) (by decide)
      (by decide)]
    decide

/-! ## C1/C2: upload naming and payload extraction -/

/-- C1 counterexample: the caller-supplied name `"logo.png"` survives
sanitization, yet the blob is created under a synthesized
`timestamp-randomhex.png` name and the response's `name` is that synthetic
name, not `"logo.png"`. -/
theorem upload_keeps_caller_name_counterexample :
    sanitizeAssetName (some "logo.png".data) = some "logo.png".data ∧
    uploadHandler 5 "0a0b".data none (some "logo.png".data)
        (some "data:image/png;base64,iVBOR".data) none =
      .ok { name := "5-0a0b.png".data, folder := [],
            relativePath := "5-0a0b.png".data,
            assetPath := "assets/5-0a0b.png".data,
            content := "iVBOR".data,
            commitMessage := "Upload 5-0a0b.png via GitCDN".data } ∧
    ("5-0a0b.png".data : JStr) ≠ "logo.png".data :=
  ⟨by decide, by rfl, by decide⟩

/-- C1 (amended). For every upload request with a valid folder and content,
the asset name is ALWAYS synthesized by `generateAnonymousAssetName`
(timestamp plus random hex, extension inferred first from the sanitized
caller-supplied name, else from the MIME lookup on the data-URL, else
omitted); the caller-supplied name only ever contributes its extension.
The blob goes to `assetRoot/[folder/]syntheticName` and the response's
`name` is the synthetic name. -/
theorem upload_name_always_synthesized (now : Nat) (randHex : JStr)
    (folder name content message : Option JStr) (folderPath n b64 : JStr)
    (hf : normalizeFolderPath folder = some folderPath)
    (hn : sanitizeAssetName name = some n)
    (hc : extractBase64Payload content = some b64) :
    ∃ plan, uploadHandler now randHex folder name content message = .ok plan ∧
      plan.name = generateAnonymousAssetName now randHex (some n) content ∧
      plan.relativePath =
        (if folderPath = [] then plan.name else folderPath ++ '/' :: plan.name) ∧
      plan.assetPath = joinAssetRepoPath plan.relativePath ∧
      plan.content = b64 := by
  unfold uploadHandler
  rw [hf]
  dsimp only
  rw [hc]
  dsimp only
  rw [hn]
  exact ⟨_, rfl, rfl, rfl, rfl, rfl⟩

/-- C1 witness: the amended theorem at concrete inputs. -/
theorem upload_name_always_synthesized_witness :
    ∃ plan, uploadHandler 7 "ffee".data (some "a".data) (some "pic.jpg".data)
        (some "data:image/png;base64,AAAA".data) none = .ok plan ∧
      plan.name = generateAnonymousAssetName 7 "ffee".data (some "pic.jpg".data)
        (some "data:image/png;base64,AAAA".data) ∧
      plan.relativePath =
        (if ("a".data : JStr) = [] then plan.name else "a".data ++ '/' :: plan.name) ∧
      plan.assetPath = joinAssetRepoPath plan.relativePath ∧
      plan.content = "AAAA".data :=
  upload_name_always_synthesized 7 "ffee".data (some "a".data) (some "pic.jpg".data)
    (some "data:image/png;base64,AAAA".data) none "a".data "pic.jpg".data "AAAA".data
    (by decide) (by decide) (by decide)

theorem commaIdx_of_not_mem (s : JStr) (h : ',' ∉ s) : commaIdx s = none := by
  induction s with
  | nil => rfl
  | cons x xs ih =>
    have hx : x ≠ ',' := fun hxc => h (hxc ▸ List.mem_cons_self x xs)
    have hxs : ',' ∉ xs := fun hc => h (List.mem_cons_of_mem x hc)
    unfold commaIdx
    rw [if_neg hx, ih hxs]
    rfl

theorem commaIdx_append (pre post : JStr) (h : ',' ∉ pre) :
    commaIdx (pre ++ ',' :: post) = some pre.length := by
  induction pre with
  | nil => simp [commaIdx]
  | cons x xs ih =>
    have hx : x ≠ ',' := fun hxc => h (hxc ▸ List.mem_cons_self x xs)
    have hxs : ',' ∉ xs := fun hc => h (List.mem_cons_of_mem x hc)
    rw [List.cons_append]
    unfold commaIdx
    rw [if_neg hx, ih hxs]
    rfl

/-- C2 counterexample: a plain base64 string with no data-URL prefix (and
hence no comma) is NOT a valid payload — `extractBase64Payload` returns
null and the upload handler answers 400 "Invalid upload payload.". -/
theorem plain_base64_rejected_counterexample :
    extractBase64Payload (some "aGVsbG8=".data) = none ∧
    uploadHandler 5 "0a0b".data none none (some "aGVsbG8=".data) none =
      .error "Invalid upload payload.".data :=
  ⟨by decide, by rfl⟩

/-- Decomposing a string at its first comma: if `commaIdx s = some i` then
`s` splits as a comma-free prefix of length `i`, the comma, and the rest. -/
theorem commaIdx_decomp : ∀ (s : JStr) (i : Nat), commaIdx s = some i →
    s = s.take i ++ ',' :: s.drop (i + 1) ∧ ',' ∉ s.take i ∧ (s.take i).length = i
  | [], i, h => by simp [commaIdx] at h
  | x :: xs, i, h => by
    by_cases hx : x = ','
    · subst hx
      unfold commaIdx at h
      rw [if_pos rfl] at h
      have hi : i = 0 := by
        injection h with h'
        omega
      subst hi
      exact ⟨rfl, by simp, rfl⟩
    · unfold commaIdx at h
      rw [if_neg hx] at h
      match hxs : commaIdx xs with
      | none =>
        rw [hxs] at h
        simp at h
      | some j =>
        rw [hxs] at h
        have hji : j + 1 = i := by
          have h' : some (j + 1) = some i := by simpa using h
          injection h'
        subst hji
        obtain ⟨hsplit, hmem, hlen⟩ := commaIdx_decomp xs j hxs
        refine ⟨?_, ?_, ?_⟩
        · rw [List.take_succ_cons, List.drop_succ_cons, List.cons_append]
          exact congrArg (x :: ·) hsplit
        · rw [List.take_succ_cons]
          intro hmem'
          rcases List.mem_cons.mp hmem' with h1 | h1
          · exact hx h1.symm
          · exact hmem h1
        · rw [List.take_succ_cons, List.length_cons, hlen]

/-- C2 (amended). The `content` field is accepted exactly when its first
comma sits strictly inside the string (index at least 1 and not the last
position); everything after that first comma is what gets committed (for a
data-URL, the prefix up to and including the first comma is stripped). A
string with no comma at all — in particular a plain base64 payload — is
rejected, as is one whose first comma is the leading or the trailing
character. -/
theorem extract_base64_characterization :
    (∀ pre post : JStr, pre ≠ [] → ',' ∉ pre → post ≠ [] →
      extractBase64Payload (some (pre ++ ',' :: post)) = some post) ∧
    (∀ s : JStr, ',' ∉ s → extractBase64Payload (some s) = none) ∧
    (∀ s : JStr, extractBase64Payload (some (',' :: s)) = none) ∧
    (∀ pre : JStr, ',' ∉ pre → extractBase64Payload (some (pre ++ [','])) = none) ∧
    (∀ s t : JStr, extractBase64Payload (some s) = some t →
      ∃ pre, s = pre ++ ',' :: t ∧ ',' ∉ pre ∧ pre ≠ [] ∧ t ≠ []) := by
  refine ⟨?_, ?_, ?_, ?_, ?_⟩
  · intro pre post hne hnm hpost
    unfold extractBase64Payload jsIndexOfComma
    dsimp only
    rw [commaIdx_append pre post hnm]
    dsimp only
    have hpre : 0 < pre.length := List.length_pos.mpr hne
    have hpost' : 0 < post.length := List.length_pos.mpr hpost
    rw [if_neg (by
      push_neg
      constructor
      · exact_mod_cast hpre
      · intro hbad
        rw [List.length_append, List.length_cons] at hbad
        omega)]
    congr 1
    have : ((pre.length : Int).toNat + 1) = (pre ++ [',']).length := by
      simp [List.length_append]
    rw [this, show pre ++ ',' :: post = (pre ++ [',']) ++ post by simp,
      List.drop_left]
  · intro s hnm
    unfold extractBase64Payload jsIndexOfComma
    dsimp only
    rw [commaIdx_of_not_mem s hnm]
    dsimp only
    rw [if_pos (by left; norm_num)]
  · intro s
    unfold extractBase64Payload jsIndexOfComma
    dsimp only
    rw [show commaIdx (',' :: s) = some 0 from by unfold commaIdx; rw [if_pos rfl]]
    dsimp only
    rw [if_pos (by left; norm_num)]
  · intro pre h
    unfold extractBase64Payload jsIndexOfComma
    dsimp only
    rw [show pre ++ [','] = pre ++ ',' :: ([] : JStr) from rfl,
      commaIdx_append pre [] h]
    dsimp only
    rw [if_pos (Or.inr (by
      rw [List.length_append, List.length_cons, List.length_nil]
      push_cast
      omega))]
  · intro s t h
    unfold extractBase64Payload jsIndexOfComma at h
    dsimp only at h
    match hidx : commaIdx s with
    | none =>
      rw [hidx] at h
      dsimp only at h
      rw [if_pos (by left; norm_num)] at h
      cases h
    | some i =>
      rw [hidx] at h
      dsimp only at h
      by_cases hcond : (i : Int) ≤ 0 ∨ (i : Int) = (s.length : Int) - 1
      · rw [if_pos hcond] at h
        cases h
      · rw [if_neg hcond] at h
        push_neg at hcond
        obtain ⟨h1, h2⟩ := hcond
        have hi0 : 0 < i := by exact_mod_cast h1
        obtain ⟨hsplit, hmem, hlen⟩ := commaIdx_decomp s i hidx
        have ht : t = s.drop (i + 1) := by
          have htn : ((i : Int)).toNat = i := by simp
          rw [htn] at h
          injection h with h'
          exact h'.symm
        refine ⟨s.take i, ?_, hmem, ?_, ?_⟩
        · rw [ht]
          exact hsplit
        · intro hnil
          rw [hnil] at hlen
          simp at hlen
          omega
        · intro htnil
          rw [ht] at htnil
          have hd0 : (s.drop (i + 1)).length = 0 := by rw [htnil]; rfl
          have hslen : s.length = i + 1 + (s.drop (i + 1)).length := by
            conv_lhs => rw [hsplit]
            simp only [List.length_append, List.length_cons, hlen]
            omega
          rw [List.length_drop] at hd0
          omega

/-- C2 witness: the amended characterization at concrete inputs — an
interior first comma is accepted with the suffix, while a comma-free
string, a leading comma and a trailing first comma are all rejected. -/
theorem extract_base64_characterization_witness :
    extractBase64Payload (some ("data:image/png;base64".data ++ ',' :: "iVBOR".data)) =
      some "iVBOR".data ∧
    extractBase64Payload (some "aGVsbG8".data) = none ∧
    extractBase64Payload (some (',' :: "abc".data)) = none ∧
    extractBase64Payload (some ("ab".data ++ [','])) = none :=
  ⟨extract_base64_characterization.1 "data:image/png;base64".data "iVBOR".data
      (by decide) (by decide) (by decide),
    extract_base64_characterization.2.1 "aGVsbG8".data (by decide),
    extract_base64_characterization.2.2.1 "abc".data,
    extract_base64_characterization.2.2.2.1 "ab".data (by decide)⟩

/-! ## C5/C10: path sanitization -/

/-- C5. The spec's path-sanitization examples: traversal and the bare asset
root are handled exactly as stated, for both the folder normalizer and the
single-segment asset-name sanitizer. -/
theorem path_sanitization_examples :
    normalizeFolderPath (some "assets/a/../b".data) = none ∧
    normalizeFolderPath none = some [] ∧
    normalizeFolderPath (some "assets".data) = some [] ∧
    normalizeFolderPath (some "a/b".data) = some "a/b".data ∧
    normalizeFolderPath (some "a//b/".data) = some "a/b".data ∧
    sanitizeAssetName (some "../../etc/passwd".data) = none ∧
    sanitizeAssetName (some "logo.png".data) = some "logo.png".data := by
  decide

/-- C10. The single-segment asset-name sanitizer accepts strings the
path-segment allow-list rejects: `"a?b"` passes `sanitizeAssetName`
unchanged but fails `sanitizePathSegment` (and hence both normalizers), and
`DELETE /api/assets/:name` accepts it and issues the delete at
`assets/a?b`. -/
theorem asset_name_sanitizer_more_permissive :
    sanitizeAssetName (some "a?b".data) = some "a?b".data ∧
    sanitizePathSegment "a?b".data = none ∧
    normalizeFolderPath (some "a?b".data) = none ∧
    normalizeAssetRelativePath (some "a?b".data) = none ∧
    deleteAssetByNameHandler (some "a?b".data) (some "s1".data) =
      (⟨200, none⟩,
       [.deleteFile "assets/a?b".data "s1".data "Delete a?b via GitCDN".data]) := by
  decide

/-! ## C7: move guards -/

/-- A concrete GitHub-content oracle for the move witnesses. -/
def gh0 : JStr → Option GhFile := fun p =>
  if p = "assets/a/logo.png".data then
    some ⟨"file".data, "QUJD\n".data, "base64".data, "s9".data⟩
  else if p = "assets/b/logo.png".data then
    some ⟨"file".data, "ZZZ".data, "base64".data, "s8".data⟩
  else none

/-- C7. Move guards: a move whose computed target equals the source is
rejected with 400 before any upstream call (empty call trace); a move whose
target already exists fails 409 after the single existence probe, with no
write or delete issued, leaving the repository contents untouched. -/
theorem move_guards (gh : JStr → Option GhFile) (bodyPath bodyDestination : Option JStr)
    (sourcePath destinationFolder : JStr)
    (hsp : normalizeAssetRelativePath bodyPath = some sourcePath)
    (hdf : normalizeFolderPath bodyDestination = some destinationFolder) :
    (moveTargetPath destinationFolder sourcePath = sourcePath →
      moveHandler gh bodyPath bodyDestination =
        (⟨400, some "Source and destination are the same.".data⟩, [])) ∧
    (moveTargetPath destinationFolder sourcePath ≠ sourcePath →
      gh (joinAssetRepoPath (moveTargetPath destinationFolder sourcePath)) ≠ none →
      (moveHandler gh bodyPath bodyDestination).1.status = 409 ∧
      (moveHandler gh bodyPath bodyDestination).2 =
        [.getContent (joinAssetRepoPath (moveTargetPath destinationFolder sourcePath))] ∧
      applyCalls gh (moveHandler gh bodyPath bodyDestination).2 = gh) := by
  unfold moveHandler
  rw [hsp]
  dsimp only
  rw [hdf]
  dsimp only
  constructor
  · intro heq
    rw [if_pos heq]
  · intro hne hex
    rw [if_neg hne]
    cases hgh : gh (joinAssetRepoPath (moveTargetPath destinationFolder sourcePath)) with
    | none => exact absurd hgh hex
    | some f =>
      exact ⟨rfl, rfl, rfl⟩

/-- C7 witness: the two guards at concrete inputs against `gh0`. -/
theorem move_guards_witness :
    (moveHandler gh0 (some "a/logo.png".data) (some "a".data) =
      (⟨400, some "Source and destination are the same.".data⟩, [])) ∧
    ((moveHandler gh0 (some "a/logo.png".data) (some "b".data)).1.status = 409 ∧
      (moveHandler gh0 (some "a/logo.png".data) (some "b".data)).2 =
        [.getContent "assets/b/logo.png".data] ∧
      applyCalls gh0 (moveHandler gh0 (some "a/logo.png".data) (some "b".data)).2 = gh0) := by
  constructor
  · exact (move_guards gh0 (some "a/logo.png".data) (some "a".data)
      "a/logo.png".data "a".data (by decide) (by decide)).1 (by decide)
  · have h := (move_guards gh0 (some "a/logo.png".data) (some "b".data)
      "a/logo.png".data "b".data (by decide) (by decide)).2 (by decide) (by decide)
    exact ⟨h.1, by rw [h.2.1]; rfl, h.2.2⟩

/-! ## C8: expired session is indistinguishable from an absent one -/

/-- C8. For an endpoint requiring authentication, a cookie whose decrypted
payload is expired, a corrupt cookie, and a cookie whose payload lacks a
non-empty `github_token` all produce exactly the outward outcome of having
no cookie at all: no session, session cookie cleared, 401. -/
theorem expired_session_indistinguishable (A : AEAD) (C : Codec UserSession)
    (now : Nat) (tokExpired tokCorrupt tokNoToken : JStr)
    (pExpired pNoToken : UserSession)
    (hExp : decryptPayload A C tokExpired = some pExpired)
    (hExpPast : pExpired.expires_at < now)
    (hCorrupt : decryptPayload A C tokCorrupt = none)
    (hNo : decryptPayload A C tokNoToken = some pNoToken)
    (hNoTok : pNoToken.github_token = []) :
    requireSession A C (some tokExpired) now = requireSession A C none now ∧
    requireSession A C (some tokCorrupt) now = requireSession A C none now ∧
    requireSession A C (some tokNoToken) now = requireSession A C none now ∧
    requireSession A C none now =
      { session := none, sessionCookieCleared := true, status := some 401 } := by
  refine ⟨?_, ?_, ?_, rfl⟩
  · unfold requireSession readSession readEncryptedCookie
    dsimp only
    rw [hExp]
    dsimp only
    rw [if_pos hExpPast]
  · unfold requireSession readSession readEncryptedCookie
    dsimp only
    rw [hCorrupt]
  · unfold requireSession readSession readEncryptedCookie
    dsimp only
    rw [hNo]
    dsimp only
    by_cases h3 : pNoToken.expires_at < now
    · rw [if_pos h3]
    · rw [if_neg h3, if_pos hNoTok]

/-- A concrete expired session for the C8 witness. -/
def sessExpired : UserSession :=
  ⟨"tok".data, "u".data, "av".data, none, none, 0, 10⟩

/-- A concrete session with an empty `github_token` for the C8 witness. -/
def sessNoToken : UserSession :=
  ⟨[], "u".data, "av".data, none, none, 0, 1000000⟩

/-- A concrete table codec for `UserSession` used by the C8 witness. -/
def sessionCodec : Codec UserSession where
  stringify := fun p => if p = sessExpired then [1] else if p = sessNoToken then [2] else [0]
  parse := fun l =>
    if l = [1] then some sessExpired else if l = [2] then some sessNoToken else none

/-- C8 witness: the indistinguishability at concrete tokens and `now = 50`. -/
theorem expired_session_indistinguishable_witness :
    requireSession demoAEAD sessionCodec
        (some (encryptPayload demoAEAD sessionCodec demoIv sessExpired)) 50 =
      requireSession demoAEAD sessionCodec none 50 ∧
    requireSession demoAEAD sessionCodec (some "xx".data) 50 =
      requireSession demoAEAD sessionCodec none 50 ∧
    requireSession demoAEAD sessionCodec
        (some (encryptPayload demoAEAD sessionCodec demoIv sessNoToken)) 50 =
      requireSession demoAEAD sessionCodec none 50 ∧
    requireSession demoAEAD sessionCodec none 50 =
      { session := none, sessionCookieCleared := true, status := some 401 } :=
  expired_session_indistinguishable demoAEAD sessionCodec 50
    (encryptPayload demoAEAD sessionCodec demoIv sessExpired) "xx".data
    (encryptPayload demoAEAD sessionCodec demoIv sessNoToken)
    sessExpired sessNoToken (by decide) (by decide) (by decide) (by decide) (by decide)

/-! ## C9: OAuth state is one-shot -/

/-- C9. On every callback the OAuth-state cookie is cleared regardless of
outcome; the handshake gate fails whenever the state cookie is missing or
undecryptable, the supplied `state` differs from the stored one, or the
stored state has expired — so a consumed state presented on a second
callback (whose cookie is gone) never proceeds to the token exchange. -/
theorem oauth_state_one_shot (A : AEAD) (C : Codec OAuthStateData) :
    (∀ (cookie : Option JStr) (code state : JStr) (now : Nat),
      (callbackGate A C cookie code state now).stateCookieCleared = true) ∧
    (∀ (code state : JStr) (now : Nat),
      (callbackGate A C none code state now).proceeds = false) ∧
    (∀ (v code state : JStr) (now : Nat), decryptPayload A C v = none →
      (callbackGate A C (some v) code state now).proceeds = false) ∧
    (∀ (v code state : JStr) (now : Nat) (st : OAuthStateData),
      decryptPayload A C v = some st → st.state ≠ state →
      (callbackGate A C (some v) code state now).proceeds = false) ∧
    (∀ (v code state : JStr) (now : Nat) (st : OAuthStateData),
      decryptPayload A C v = some st → st.expires_at < now →
      (callbackGate A C (some v) code state now).proceeds = false) := by
  refine ⟨?_, ?_, ?_, ?_, ?_⟩
  · intro cookie code state now
    unfold callbackGate readEncryptedCookie
    cases cookie with
    | none =>
      dsimp only
      split
      · rfl
      · rfl
    | some v =>
      dsimp only
      split
      · rfl
      · cases decryptPayload A C v with
        | none => rfl
        | some st =>
          dsimp only
          split
          · rfl
          · rfl
  · intro code state now
    unfold callbackGate readEncryptedCookie
    dsimp only
    split
    · rfl
    · rfl
  · intro v code state now hdec
    unfold callbackGate readEncryptedCookie
    dsimp only
    rw [hdec]
    split
    · rfl
    · rfl
  · intro v code state now st hdec hne
    unfold callbackGate readEncryptedCookie
    dsimp only
    rw [hdec]
    split
    · rfl
    · dsimp only
      rw [if_pos (Or.inl hne)]
  · intro v code state now st hdec hexp
    unfold callbackGate readEncryptedCookie
    dsimp only
    rw [hdec]
    split
    · rfl
    · dsimp only
      rw [if_pos (Or.inr hexp)]

/-- A concrete stored OAuth state for the C9 witness. -/
def demoOAuthState : OAuthStateData := ⟨"s1".data, 100⟩

/-- A concrete table codec for `OAuthStateData` used by the C9 witness. -/
def oauthCodec : Codec OAuthStateData where
  stringify := fun _ => [3]
  parse := fun l => if l = [3] then some demoOAuthState else none

/-- C9 witness: a second callback without the state cookie never proceeds,
and a mismatched state never proceeds, at concrete inputs. -/
theorem oauth_state_one_shot_witness :
    (callbackGate demoAEAD oauthCodec none "c".data "s1".data 0).proceeds = false ∧
    (callbackGate demoAEAD oauthCodec
      (some (encryptPayload demoAEAD oauthCodec demoIv demoOAuthState))
      "c".data "s2".data 0).proceeds = false :=
  ⟨(oauth_state_one_shot demoAEAD oauthCodec).2.1 "c".data "s1".data 0,
   (oauth_state_one_shot demoAEAD oauthCodec).2.2.2.1
     (encryptPayload demoAEAD oauthCodec demoIv demoOAuthState)
     "c".data "s2".data 0 demoOAuthState (by decide) (by decide)⟩

/-! ## C6: inventory reconstruction -/

theorem mem_setAdd (y x : JStr) (s : List JStr) : y ∈ setAdd s x ↔ y ∈ s ∨ y = x := by
  unfold setAdd
  split
  · rename_i hx
    constructor
    · exact Or.inl
    · rintro (h | rfl)
      · exact h
      · exact hx
  · simp [List.mem_append]

theorem mem_addFolderWithAncestors_of_mem (p : JStr) (s : List JStr) (y : JStr)
    (hy : y ∈ s) : y ∈ addFolderWithAncestors s p := by
  rw [addFolderWithAncestors_eq]
  by_cases h : p = []
  · rw [if_pos h]
    exact hy
  · rw [if_neg h]
    exact mem_addFolderWithAncestors_of_mem (parentFolderPath p) (setAdd s p) y
      ((mem_setAdd y p s).mpr (Or.inl hy))
termination_by p.length
decreasing_by exact parentFolderPath_length_lt p h

theorem chain_subset_addFolderWithAncestors (p : JStr) (s : List JStr) (y : JStr)
    (hy : y ∈ folderChain p) : y ∈ addFolderWithAncestors s p := by
  rw [folderChain_eq] at hy
  rw [addFolderWithAncestors_eq]
  by_cases h : p = []
  · rw [if_pos h] at hy
    cases hy
  · rw [if_neg h] at hy
    rw [if_neg h]
    rcases List.mem_cons.mp hy with rfl | hy'
    · exact mem_addFolderWithAncestors_of_mem _ _ _ ((mem_setAdd y y s).mpr (Or.inr rfl))
    · exact chain_subset_addFolderWithAncestors (parentFolderPath p) (setAdd s p) y hy'
termination_by p.length
decreasing_by exact parentFolderPath_length_lt p h

theorem mem_folders_inventoryLoop (sel : RepoSelection) (l : List AssetBlobEntry) :
    ∀ (files : List AssetFile) (fs : List JStr) (y : JStr), y ∈ fs →
    y ∈ (inventoryLoop sel files fs l).2 := by
  induction l with
  | nil => intro files fs y hy; exact hy
  | cons e rest ih =>
    intro files fs y hy
    rw [inventoryLoop]
    dsimp only
    split
    · exact ih _ _ _ (mem_addFolderWithAncestors_of_mem _ _ _ hy)
    · exact ih _ _ _ (mem_addFolderWithAncestors_of_mem _ _ _ hy)

theorem mem_files_inventoryLoop (sel : RepoSelection) (l : List AssetBlobEntry) :
    ∀ (files : List AssetFile) (fs : List JStr) (f : AssetFile),
    f ∈ (inventoryLoop sel files fs l).1 →
    f ∈ files ∨ ∃ e ∈ l, fileNameFromPath e.relativePath ≠ ".gitkeep".data ∧
      f = mkAssetFile sel e := by
  induction l with
  | nil => intro files fs f h; exact Or.inl h
  | cons e rest ih =>
    intro files fs f h
    rw [inventoryLoop] at h
    dsimp only at h
    by_cases hg : fileNameFromPath e.relativePath = ".gitkeep".data
    · rw [if_pos hg] at h
      rcases ih _ _ _ h with h1 | ⟨e', he', hne, hf⟩
      · exact Or.inl h1
      · exact Or.inr ⟨e', List.mem_cons_of_mem _ he', hne, hf⟩
    · rw [if_neg hg] at h
      rcases ih _ _ _ h with h1 | ⟨e', he', hne, hf⟩
      · rcases List.mem_append.mp h1 with h2 | h2
        · exact Or.inl h2
        · exact Or.inr ⟨e, List.mem_cons_self e rest, hg, by simpa using h2⟩
      · exact Or.inr ⟨e', List.mem_cons_of_mem _ he', hne, hf⟩

theorem chain_closed_inventoryLoop (sel : RepoSelection) (l : List AssetBlobEntry) :
    ∀ (files : List AssetFile) (fs : List JStr),
    (∀ f ∈ files, ∀ a ∈ folderChain f.folder, a ∈ fs) →
    ∀ f ∈ (inventoryLoop sel files fs l).1, ∀ a ∈ folderChain f.folder,
      a ∈ (inventoryLoop sel files fs l).2 := by
  induction l with
  | nil => intro files fs hinv f hf a ha; exact hinv f hf a ha
  | cons e rest ih =>
    intro files fs hinv f hf a ha
    rw [inventoryLoop] at hf ⊢
    dsimp only at hf ⊢
    by_cases hg : fileNameFromPath e.relativePath = ".gitkeep".data
    · rw [if_pos hg] at hf ⊢
      exact ih _ _
        (fun f' hf' a' ha' => mem_addFolderWithAncestors_of_mem _ _ _ (hinv f' hf' a' ha'))
        f hf a ha
    · rw [if_neg hg] at hf ⊢
      refine ih _ _ ?_ f hf a ha
      intro f' hf' a' ha'
      rcases List.mem_append.mp hf' with h2 | h2
      · exact mem_addFolderWithAncestors_of_mem _ _ _ (hinv f' h2 a' ha')
      · have hf'' : f' = mkAssetFile sel e := by simpa using h2
        subst hf''
        exact chain_subset_addFolderWithAncestors _ _ _ ha'

theorem gitkeep_chain_inventoryLoop (sel : RepoSelection) (l : List AssetBlobEntry)
    (e : AssetBlobEntry) :
    ∀ (files : List AssetFile) (fs : List JStr), e ∈ l →
    ∀ a ∈ folderChain (parentFolderPath e.relativePath),
      a ∈ (inventoryLoop sel files fs l).2 := by
  induction l with
  | nil => intro _ _ he; cases he
  | cons e' rest ih =>
    intro files fs he a ha
    rw [inventoryLoop]
    dsimp only
    rcases List.mem_cons.mp he with rfl | he'
    · split
      · exact mem_folders_inventoryLoop sel rest _ _ _
          (chain_subset_addFolderWithAncestors _ _ _ ha)
      · exact mem_folders_inventoryLoop sel rest _ _ _
          (chain_subset_addFolderWithAncestors _ _ _ ha)
    · split
      · exact ih _ _ he' a ha
      · exact ih _ _ he' a ha

theorem mem_insertBy (le : α → α → Bool) (x y : α) (l : List α) :
    y ∈ insertBy le x l ↔ y = x ∨ y ∈ l := by
  induction l with
  | nil => simp [insertBy]
  | cons z zs ih =>
    unfold insertBy
    split
    · simp [List.mem_cons]
    · simp only [List.mem_cons, ih]
      tauto

theorem mem_sortBy (le : α → α → Bool) (y : α) (l : List α) :
    y ∈ sortBy le l ↔ y ∈ l := by
  induction l with
  | nil => simp [sortBy]
  | cons x xs ih =>
    show y ∈ insertBy le x (sortBy le xs) ↔ _
    rw [mem_insertBy]
    simp only [List.mem_cons, ih]

theorem folder_path_of_mem_set (sel : RepoSelection) (entries : List AssetBlobEntry)
    (a : JStr) (ha : a ∈ (inventoryLoop sel [] [] entries).2) :
    ∃ fo ∈ (buildAssetInventory sel entries).2, fo.path = a := by
  unfold buildAssetInventory
  dsimp only
  exact ⟨_, List.mem_map_of_mem _ ((mem_sortBy _ _ _).mpr ha), rfl⟩

/-- The tree nodes of the spec's inventory example. -/
def demoNodes : List TreeNode :=
  [⟨"blob".data, some "assets/x.png".data, some "s1".data, some 3⟩,
   ⟨"blob".data, some "assets/a/b/y.png".data, some "s2".data, some 4⟩,
   ⟨"blob".data, some "assets/a/.gitkeep".data, some "s3".data, some 1⟩]

/-- A concrete selection for the inventory example. -/
def demoSel : RepoSelection := ⟨"o".data, "r".data, "main".data⟩

/-- C6. Inventory reconstruction. Concretely: from the blob paths
`assets/x.png`, `assets/a/b/y.png`, `assets/a/.gitkeep` the builder
produces exactly the folders `a` and `a/b` and the files `x.png` (folder
root) and `y.png` (folder `a/b`) — files sorted by path, so `y.png` first.
Generally: no produced file is named `.gitkeep`; every ancestor of a
produced file's folder appears in the folder set; and a `.gitkeep` blob
contributes its parent folder and all ancestors to the folder set. -/
theorem inventory_reconstruction :
    ((buildAssetInventory demoSel (getAssetBlobEntries demoNodes)).2.map AssetFolder.path
        = ["a".data, "a/b".data] ∧
      (buildAssetInventory demoSel (getAssetBlobEntries demoNodes)).1.map
          (fun f => (f.name, f.folder)) =
        [("y.png".data, "a/b".data), ("x.png".data, ([] : JStr))]) ∧
    (∀ (sel : RepoSelection) (entries : List AssetBlobEntry),
      ∀ f ∈ (buildAssetInventory sel entries).1,
        f.name ≠ ".gitkeep".data ∧
        ∀ a ∈ folderChain f.folder,
          ∃ fo ∈ (buildAssetInventory sel entries).2, fo.path = a) ∧
    (∀ (sel : RepoSelection) (entries : List AssetBlobEntry) (e : AssetBlobEntry),
      e ∈ entries → fileNameFromPath e.relativePath = ".gitkeep".data →
      ∀ a ∈ folderChain (parentFolderPath e.relativePath),
        ∃ fo ∈ (buildAssetInventory sel entries).2, fo.path = a) := by
  refine ⟨by decide, ?_, ?_⟩
  · intro sel entries f hf
    have hf' : f ∈ (inventoryLoop sel [] [] entries).1 := by
      have := (mem_sortBy (fun a b => jstrLe a.path b.path) f
        (inventoryLoop sel [] [] entries).1).mp
      exact this hf
    constructor
    · rcases mem_files_inventoryLoop sel entries [] [] f hf' with h | ⟨e, _, hne, hfe⟩
      · cases h
      · rw [hfe]
        exact hne
    · intro a ha
      have hset : a ∈ (inventoryLoop sel [] [] entries).2 :=
        chain_closed_inventoryLoop sel entries [] [] (by intro f' hf'; cases hf')
          f hf' a ha
      exact folder_path_of_mem_set sel entries a hset
  · intro sel entries e he hg a ha
    exact folder_path_of_mem_set sel entries a
      (gitkeep_chain_inventoryLoop sel entries e [] [] he a ha)

/-- C6 witness: the general `.gitkeep` clause applied at the concrete
example — the `a/.gitkeep` blob makes folder `a` appear. -/
theorem inventory_reconstruction_witness :
    ∃ fo ∈ (buildAssetInventory demoSel (getAssetBlobEntries demoNodes)).2,
      fo.path = "a".data :=
  inventory_reconstruction.2.2 demoSel (getAssetBlobEntries demoNodes)
    ⟨"assets/a/.gitkeep".data, "a/.gitkeep".data, "s3".data, 1⟩
    (by decide) (by decide) "a".data (by decide)
